import Mathlib

/-!
Shallow embedding of the SPH fluid simulation (src/main.rs) and verification of
its specification claims.

Modelling conventions:
* f32 scalars are modelled as exact rationals (ℚ).  All f32 literals of the
  source are exactly representable except the timestep 0.0007 and PI; DT is
  taken as the decimal 0.0007 (the f32 rounding of the literal is immaterial to
  every statement below), and PI is taken as the exact rational value of
  std::f32::consts::PI, namely 13176795/4194304.
* f32::sqrt (reached through Vec2 length/normalize and the force kernel) is
  modelled by Rat.sqrt, which is exact on perfect rational squares — the only
  points at which any concrete statement below evaluates it.
* Division by zero, which in f32 produces an infinity or NaN, is total in ℚ
  (q / 0 = 0).  Claims about non-finite values are therefore settled through
  explicit instrumentation predicates that record whether a division site of
  the source was reached with a zero divisor.
* The Rust passes mutate the particle vector in place while reading a clone
  taken before the pass; this is modelled operationally by inPlacePass, a fold
  that visits the indices in order and overwrites one slot per visit, reading
  neighbours only from the pre-pass snapshot.
-/

namespace SPH

/-- Two-dimensional vector over the rational model of f32 (glam Vec2). -/
structure Vec2 where
  x : ℚ
  y : ℚ
deriving DecidableEq

instance : Zero Vec2 :=
  ⟨⟨0, 0⟩⟩

instance : Add Vec2 :=
  ⟨fun a b => ⟨a.x + b.x, a.y + b.y⟩⟩

instance : Neg Vec2 :=
  ⟨fun a => ⟨-a.x, -a.y⟩⟩

instance : Sub Vec2 :=
  ⟨fun a b => ⟨a.x - b.x, a.y - b.y⟩⟩

instance : HMul ℚ Vec2 Vec2 :=
  ⟨fun c v => ⟨c * v.x, c * v.y⟩⟩

instance : HMul Vec2 ℚ Vec2 :=
  ⟨fun v c => ⟨v.x * c, v.y * c⟩⟩

instance : HDiv Vec2 ℚ Vec2 :=
  ⟨fun v c => ⟨v.x / c, v.y / c⟩⟩

/-- Dot product (glam Vec2::dot). -/
def Vec2.dot (a b : Vec2) : ℚ :=
  a.x * b.x + a.y * b.y

/-- Euclidean length (glam Vec2::length), with f32::sqrt modelled by Rat.sqrt. -/
def Vec2.length (v : Vec2) : ℚ :=
  Rat.sqrt (v.dot v)

/-- Unit vector in the direction of v (glam Vec2::normalize): v scaled by the
reciprocal of its length.  At v = 0 the source divides by zero (NaN in f32);
the ℚ model returns 0 and the NaN is tracked by forcesNormDivZero below. -/
def Vec2.normalize (v : Vec2) : Vec2 :=
  v / v.length

/-! Constants of src/main.rs (same names). -/

def VIEW_WIDTH : ℚ := 1000.0

def VIEW_HEIGHT : ℚ := 1000.0

/-- Kernel radius (const H in the source). -/
def H : ℚ := 16.0

/-- Boundary epsilon (const EPS = H). -/
def EPS : ℚ := H

/-- Squared kernel radius (const HSQ = H * H). -/
def HSQ : ℚ := H * H

def MASS : ℚ := 2.5

def GAS : ℚ := 2000.0

def REST_DENS : ℚ := 300.0

def VISC : ℚ := 200.0

/-- External (gravitational) force vector (const G). -/
def G : Vec2 := ⟨0.0, -10.0⟩

/-- Integration timestep (const DT = 0.0007). -/
def DT : ℚ := 0.0007

def BOUND_DAMPING : ℚ := -0.5

/-- Exact rational value of the f32 constant std::f32::consts::PI. -/
def PI : ℚ := 13176795 / 4194304

/-- Particle of the simulation: position, velocity, force, density, pressure.
The Rust struct derives PartialEq, so particle comparison (used by the
self-exclusion test of compute_forces) compares all five fields by value. -/
structure Particle where
  x : Vec2
  v : Vec2
  f : Vec2
  rho : ℚ
  p : ℚ
deriving DecidableEq

/-! The three passes of Sim.  Each Rust pass clones the particle vector and
then runs iter_mut().for_each over the live vector, so every neighbour read
goes to the pre-pass snapshot while the own fields of the visited particle are
still their pre-pass values (each index is written exactly once). -/

/-- Normalization constant of the poly6 density kernel (let poly_6 in
compute_density_pressure). -/
def poly_6 : ℚ := 4.0 / (PI * H ^ 8)

/-- Body of the inner density loop: fold one snapshot particle pj into the
running density of pi (compute_density_pressure, lines 76-82). -/
def densityStep (pi : Particle) (rho : ℚ) (pj : Particle) : ℚ :=
  let rij := pj.x - pi.x
  let r2 := rij.dot rij
  if r2 < HSQ then rho + MASS * poly_6 * (HSQ - r2) ^ 3 else rho

/-- Density of pi against the snapshot: the inner loop starting from
pi.rho = 0.0. -/
def densityAt (snap : List Particle) (pi : Particle) : ℚ :=
  snap.foldl (densityStep pi) 0

/-- Contribution of one snapshot particle pj to the density of pi, read off
the branch of the inner density loop: the poly6 kernel term when the squared
distance is below HSQ and zero otherwise. -/
def densContrib (pi pj : Particle) : ℚ :=
  let rij := pj.x - pi.x
  let r2 := rij.dot rij
  if r2 < HSQ then MASS * poly_6 * (HSQ - r2) ^ 3 else 0

/-- Per-particle update of compute_density_pressure: recompute the density
from the snapshot, then the equation of state p = GAS * (rho - REST_DENS). -/
def densityUpdate (snap : List Particle) (pi : Particle) : Particle :=
  let rho := densityAt snap pi
  { pi with rho := rho, p := GAS * (rho - REST_DENS) }

/-- Normalization constant of the spiky pressure-gradient kernel
(let spiky_grad in compute_forces). -/
def spiky_grad : ℚ := -10.0 / (PI * H ^ 5)

/-- Normalization constant of the viscosity Laplacian kernel
(let visc_lap in compute_forces). -/
def visc_lap : ℚ := 40.0 / (PI * H ^ 5)

/-- Body of the inner force loop (compute_forces, lines 94-105): fold one
snapshot particle pj into the running (fpress, fvisc) pair of pi.  The guard
is the value-equality test pi != pj of the source. -/
def forcesStep (pi : Particle) (acc : Vec2 × Vec2) (pj : Particle) : Vec2 × Vec2 :=
  if pi ≠ pj then
    let rij := pj.x - pi.x
    let r := Rat.sqrt (rij.dot rij)
    if r < H then
      (acc.1 + -rij.normalize * MASS * (pi.p + pj.p) / (2 * pj.rho) * spiky_grad * (H - r) ^ 3,
        acc.2 + VISC * MASS * (pj.v - pi.v) / pj.rho * visc_lap * (H - r))
    else acc
  else acc

/-- Accumulated (fpress, fvisc) of pi over the snapshot, both starting from
Vec2::ZERO. -/
def forcesAccum (snap : List Particle) (pi : Particle) : Vec2 × Vec2 :=
  snap.foldl (forcesStep pi) (0, 0)

/-- Per-particle update of compute_forces: pi.f = fpress + fvisc + fgrav with
fgrav = G * MASS / pi.rho. -/
def forcesUpdate (snap : List Particle) (pi : Particle) : Particle :=
  let acc := forcesAccum snap pi
  let fgrav := G * MASS / pi.rho
  { pi with f := acc.1 + acc.2 + fgrav }

/-- Velocity update of integrate (line 113): v += DT * f / rho.  At rho = 0
the f32 source produces a non-finite value; the ℚ model is total there and the
event is tracked by anyRhoDivZeroIntegrate below. -/
def velUpd (p : Particle) : Vec2 :=
  p.v + DT * p.f / p.rho

/-- Position update of integrate (line 114): x += DT * v, reading the velocity
just written by velUpd (semi-implicit Euler). -/
def posUpd (p : Particle) : Vec2 :=
  p.x + DT * velUpd p

/-- Lower-edge boundary test of integrate on one axis: if pos - EPS < 0 the
velocity is damped and the position clamped to EPS. -/
def bounceLow (pos vel : ℚ) : ℚ × ℚ :=
  if pos - EPS < 0 then (EPS, vel * BOUND_DAMPING) else (pos, vel)

/-- Upper-edge boundary test of integrate on one axis: if pos + EPS > limit
the velocity is damped and the position clamped to limit - EPS. -/
def bounceHigh (limit pos vel : ℚ) : ℚ × ℚ :=
  if pos + EPS > limit then (limit - EPS, vel * BOUND_DAMPING) else (pos, vel)

/-- Both boundary tests of one axis, in source order (lower edge first; the
upper test reads the possibly already clamped position). -/
def bounceAxis (limit pos vel : ℚ) : ℚ × ℚ :=
  let a := bounceLow pos vel
  bounceHigh limit a.1 a.2

/-- Per-particle update of integrate (lines 112-132): symplectic Euler step
followed by the four independent boundary tests (x axis against VIEW_WIDTH,
y axis against VIEW_HEIGHT). -/
def integrateUpdate (q : Particle) : Particle :=
  let v1 := velUpd q
  let x1 := posUpd q
  let ax := bounceAxis VIEW_WIDTH x1.x v1.x
  let ay := bounceAxis VIEW_HEIGHT x1.y v1.y
  { q with v := ⟨ax.2, ay.2⟩, x := ⟨ax.1, ay.1⟩ }

/-- One visit of the Rust iter_mut().for_each loop: overwrite slot i of the
live vector with the update of its current value; out-of-range visits leave
the vector unchanged. -/
def passStep (g : Particle → Particle) (cur : List Particle) (i : ℕ) : List Particle :=
  match cur[i]? with
  | some q => cur.set i (g q)
  | none => cur

/-- In-place pass over the particle vector: the snapshot fed to the update
function is the pre-pass vector (the Rust clone), and the visited indices are
processed left to right, each overwriting its own slot. -/
def inPlacePass (upd : List Particle → Particle → Particle) (ps : List Particle)
    (order : List ℕ) : List Particle :=
  order.foldl (passStep (upd ps)) ps

/-- Sim::compute_density_pressure: in-place pass with the density update,
visiting the indices in order. -/
def computeDensityPressure (ps : List Particle) : List Particle :=
  inPlacePass densityUpdate ps (List.range ps.length)

/-- Sim::compute_forces: in-place pass with the force update, visiting the
indices in order. -/
def computeForces (ps : List Particle) : List Particle :=
  inPlacePass forcesUpdate ps (List.range ps.length)

/-- Sim::integrate: in-place pass with the per-particle integration update
(which reads no neighbour at all). -/
def integrate (ps : List Particle) : List Particle :=
  inPlacePass (fun _ q => integrateUpdate q) ps (List.range ps.length)

/-- One simulation tick, in the order of the main loop:
compute_density_pressure, compute_forces, integrate. -/
def step (ps : List Particle) : List Particle :=
  integrate (computeForces (computeDensityPressure ps))

/-- Iterated simulation ticks. -/
def stepN : ℕ → List Particle → List Particle
  | 0, ps => ps
  | n + 1, ps => step (stepN n ps)

/-! Instrumentation of the division sites of the source.  In f32 a division by
zero produces a non-finite value; in the ℚ model it produces 0, so the flags
below record, directly following the guards of the source, whether a division
site was reached with a zero divisor. -/

/-- True when the force loop of pi reaches one of its density divisions
(by 2 * pj.rho in the pressure term, by pj.rho in the viscosity term, or by
pi.rho in the gravity term) with a zero divisor. -/
def forcesRhoDivZero (snap : List Particle) (pi : Particle) : Bool :=
  (snap.any fun pj =>
    decide (pi ≠ pj) &&
      (decide (Rat.sqrt ((pj.x - pi.x).dot (pj.x - pi.x)) < H) &&
        (decide ((2 : ℚ) * pj.rho = 0) || decide (pj.rho = 0)))) ||
    decide (pi.rho = 0)

/-- True when the force loop of pi reaches the normalize of a zero separation
vector inside an executed branch: the divisor of normalize is the length of
rij, which is zero exactly on a zero separation. -/
def forcesNormDivZero (snap : List Particle) (pi : Particle) : Bool :=
  snap.any fun pj =>
    decide (pi ≠ pj) &&
      (decide (Rat.sqrt ((pj.x - pi.x).dot (pj.x - pi.x)) < H) &&
        decide ((pj.x - pi.x).length = 0))

/-- True when some particle of the state reaches a zero density divisor in
compute_forces. -/
def anyRhoDivZeroForces (s : List Particle) : Bool :=
  s.any fun q => forcesRhoDivZero s q

/-- True when some particle of the state reaches the division by its own
density in integrate (line 113) with a zero divisor. -/
def anyRhoDivZeroIntegrate (s : List Particle) : Bool :=
  s.any fun q => decide (q.rho = 0)

/-! Concrete particles used by the closed statements below. -/

/-- Single particle at rest in the middle of the domain. -/
def soloP : Particle := ⟨⟨500, 500⟩, 0, 0, 0, 0⟩

/-- Particle carrying a (never legitimately produced) zero density. -/
def zeroRhoA : Particle := ⟨⟨100, 100⟩, 0, 0, 0, 0⟩

/-- Kernel-range neighbour of zeroRhoA, also with zero density. -/
def zeroRhoB : Particle := ⟨⟨101, 100⟩, 0, 0, 0, 0⟩

/-- Particle at rest; shares its position with coincB. -/
def coincA : Particle := ⟨⟨100, 100⟩, 0, 0, 300, 0⟩

/-- Particle at the same position as coincA but with a different velocity, so
the two compare unequal under the derived PartialEq. -/
def coincB : Particle := ⟨⟨100, 100⟩, ⟨1, 0⟩, 0, 300, 0⟩

/-- Particle with a nonzero force, used to separate semi-implicit from
explicit Euler. -/
def euler1 : Particle := ⟨⟨500, 500⟩, 0, ⟨0, 1000⟩, 1, 0⟩

/-- Particle whose integration step crosses the lower-x boundary with
x velocity -2. -/
def bounce1 : Particle := ⟨⟨10, 500⟩, ⟨-2, 0⟩, 0, 1, 0⟩

/-- Isolated particle of density 2, used for the gravity normalization
statement. -/
def grav2 : Particle := ⟨⟨500, 500⟩, 0, 0, 2, 0⟩

/-- Image of coincA under the density pass of the coincident-pair state: the
particle whose force accumulation reaches the zero-length normalize within the
first step (the density pass moves no particle, so the pair still coincides
and, with distinct velocities, still compares unequal). -/
def coincD : Particle := densityUpdate [coincA, coincB] coincA

/-! Component lemmas for Vec2. -/

@[ext]
theorem Vec2.ext {a b : Vec2} (hx : a.x = b.x) (hy : a.y = b.y) : a = b := by
  cases a
  cases b
  simp_all

@[simp] theorem Vec2.zero_x : (0 : Vec2).x = 0 := rfl

@[simp] theorem Vec2.zero_y : (0 : Vec2).y = 0 := rfl

@[simp] theorem Vec2.add_x (a b : Vec2) : (a + b).x = a.x + b.x := rfl

@[simp] theorem Vec2.add_y (a b : Vec2) : (a + b).y = a.y + b.y := rfl

@[simp] theorem Vec2.sub_x (a b : Vec2) : (a - b).x = a.x - b.x := rfl

@[simp] theorem Vec2.sub_y (a b : Vec2) : (a - b).y = a.y - b.y := rfl

@[simp] theorem Vec2.neg_x (a : Vec2) : (-a).x = -a.x := rfl

@[simp] theorem Vec2.neg_y (a : Vec2) : (-a).y = -a.y := rfl

@[simp] theorem Vec2.smul_x (c : ℚ) (v : Vec2) : (c * v).x = c * v.x := rfl

@[simp] theorem Vec2.smul_y (c : ℚ) (v : Vec2) : (c * v).y = c * v.y := rfl

@[simp] theorem Vec2.mulc_x (v : Vec2) (c : ℚ) : (v * c).x = v.x * c := rfl

@[simp] theorem Vec2.mulc_y (v : Vec2) (c : ℚ) : (v * c).y = v.y * c := rfl

@[simp] theorem Vec2.divc_x (v : Vec2) (c : ℚ) : (v / c).x = v.x / c := rfl

@[simp] theorem Vec2.divc_y (v : Vec2) (c : ℚ) : (v / c).y = v.y / c := rfl

/-! Record projection lemmas for the per-particle updates. -/

@[simp] theorem densityUpdate_x (snap : List Particle) (q : Particle) :
    (densityUpdate snap q).x = q.x := rfl

@[simp] theorem densityUpdate_v (snap : List Particle) (q : Particle) :
    (densityUpdate snap q).v = q.v := rfl

@[simp] theorem densityUpdate_f (snap : List Particle) (q : Particle) :
    (densityUpdate snap q).f = q.f := rfl

@[simp] theorem densityUpdate_rho (snap : List Particle) (q : Particle) :
    (densityUpdate snap q).rho = densityAt snap q := rfl

@[simp] theorem densityUpdate_p (snap : List Particle) (q : Particle) :
    (densityUpdate snap q).p = GAS * (densityAt snap q - REST_DENS) := rfl

@[simp] theorem forcesUpdate_x (snap : List Particle) (q : Particle) :
    (forcesUpdate snap q).x = q.x := rfl

@[simp] theorem forcesUpdate_v (snap : List Particle) (q : Particle) :
    (forcesUpdate snap q).v = q.v := rfl

@[simp] theorem forcesUpdate_rho (snap : List Particle) (q : Particle) :
    (forcesUpdate snap q).rho = q.rho := rfl

@[simp] theorem forcesUpdate_p (snap : List Particle) (q : Particle) :
    (forcesUpdate snap q).p = q.p := rfl

@[simp] theorem forcesUpdate_f (snap : List Particle) (q : Particle) :
    (forcesUpdate snap q).f =
      (forcesAccum snap q).1 + (forcesAccum snap q).2 + G * MASS / q.rho := rfl

/-! The in-place passes are pure maps over the pre-pass snapshot. -/

theorem passStep_length (g : Particle → Particle) (cur : List Particle) (i : ℕ) :
    (passStep g cur i).length = cur.length := by
  unfold passStep
  split <;> simp

theorem passStep_getElem_ne (g : Particle → Particle) (cur : List Particle)
    (i j : ℕ) (h : j ≠ i) : (passStep g cur i)[j]? = cur[j]? := by
  unfold passStep
  split
  · exact List.getElem?_set_ne h.symm
  · rfl

theorem inPlaceFold_getElem (g : Particle → Particle) :
    ∀ (order : List ℕ) (cur ps : List Particle), order.Nodup →
      (∀ j ∈ order, cur[j]? = ps[j]?) →
      ∀ k, (order.foldl (passStep g) cur)[k]? =
        if k ∈ order then (ps[k]?).map g else cur[k]? := by
  intro order
  induction order with
  | nil =>
    intro cur ps _ _ k
    simp
  | cons i rest ih =>
    intro cur ps hnd hinv k
    rw [List.nodup_cons] at hnd
    rw [List.foldl_cons]
    have hinv' : ∀ j ∈ rest, (passStep g cur i)[j]? = ps[j]? := by
      intro j hj
      have hji : j ≠ i := fun he => hnd.1 (he ▸ hj)
      rw [passStep_getElem_ne g cur i j hji]
      exact hinv j (List.mem_cons_of_mem _ hj)
    rw [ih (passStep g cur i) ps hnd.2 hinv' k]
    by_cases hk1 : k ∈ rest
    · simp [hk1]
    · by_cases hk2 : k = i
      · subst hk2
        simp only [hk1, if_false, List.mem_cons, true_or, if_true]
        have hcur : cur[k]? = ps[k]? := hinv k (List.mem_cons_self k rest)
        unfold passStep
        rcases hq : cur[k]? with _ | q
        · rw [hq] at hcur
          rw [← hcur]
          show cur[k]? = Option.map g none
          rw [hq]
          rfl
        · rw [hq] at hcur
          have hlt : k < cur.length := by
            rcases List.getElem?_eq_some.mp hq with ⟨hl, _⟩
            exact hl
          show (cur.set k (g q))[k]? = Option.map g ps[k]?
          rw [List.getElem?_set_eq_of_lt _ hlt, ← hcur]
          rfl
      · have hk3 : k ∉ (i :: rest) := by
          simp [List.mem_cons, hk1, hk2]
        simp only [hk1, if_false, hk3]
        exact passStep_getElem_ne g cur i k hk2

theorem inPlacePass_perm_eq_map (upd : List Particle → Particle → Particle)
    (ps : List Particle) (order : List ℕ)
    (h : order.Perm (List.range ps.length)) :
    inPlacePass upd ps order = ps.map (upd ps) := by
  apply List.ext_getElem?
  intro k
  unfold inPlacePass
  rw [inPlaceFold_getElem (upd ps) order ps ps
    (h.symm.nodup (List.nodup_range _)) (fun _ _ => rfl) k]
  rw [List.getElem?_map]
  by_cases hk : k < ps.length
  · have hmem : k ∈ order := h.mem_iff.mpr (List.mem_range.mpr hk)
    simp [hmem]
  · have h1 : k ∉ order := fun hc => hk (List.mem_range.mp (h.mem_iff.mp hc))
    have h2 : ps[k]? = none := List.getElem?_eq_none (le_of_not_lt hk)
    simp [h1, h2]

theorem computeDensityPressure_eq_map (ps : List Particle) :
    computeDensityPressure ps = ps.map (densityUpdate ps) :=
  inPlacePass_perm_eq_map _ _ _ (List.Perm.refl _)

theorem computeForces_eq_map (ps : List Particle) :
    computeForces ps = ps.map (forcesUpdate ps) :=
  inPlacePass_perm_eq_map _ _ _ (List.Perm.refl _)

theorem integrate_eq_map (ps : List Particle) :
    integrate ps = ps.map integrateUpdate :=
  inPlacePass_perm_eq_map _ _ _ (List.Perm.refl _)

/-! Density as a kernel sum, and its positive self-term lower bound. -/

theorem densityStep_eq_add (pi : Particle) (rho : ℚ) (pj : Particle) :
    densityStep pi rho pj = rho + densContrib pi pj := by
  simp only [densityStep, densContrib]
  by_cases h : (pj.x - pi.x).dot (pj.x - pi.x) < HSQ
  · rw [if_pos h, if_pos h]
  · rw [if_neg h, if_neg h, add_zero]

theorem foldl_add_eq_sum (g : Particle → ℚ) :
    ∀ (l : List Particle) (a : ℚ),
      l.foldl (fun acc q => acc + g q) a = a + (l.map g).sum := by
  intro l
  induction l with
  | nil =>
    intro a
    simp
  | cons q t ih =>
    intro a
    simp only [List.foldl_cons, List.map_cons, List.sum_cons, ih, add_assoc]

theorem densityAt_eq_sum (snap : List Particle) (pi : Particle) :
    densityAt snap pi = (snap.map (densContrib pi)).sum := by
  have h : densityStep pi = fun acc q => acc + densContrib pi q := by
    funext acc q
    exact densityStep_eq_add pi acc q
  unfold densityAt
  rw [h, foldl_add_eq_sum, zero_add]

theorem poly_6_pos : 0 < poly_6 := by
  norm_num [poly_6, PI, H]

theorem selfTerm_pos : 0 < MASS * poly_6 * HSQ ^ 3 := by
  norm_num [MASS, poly_6, PI, H, HSQ]

theorem densContrib_nonneg (pi pj : Particle) : 0 ≤ densContrib pi pj := by
  simp only [densContrib]
  split
  next h =>
    have h2 : (0 : ℚ) < MASS * poly_6 := by norm_num [MASS, poly_6, PI, H]
    have h1 : (0 : ℚ) ≤ HSQ - (pj.x - pi.x).dot (pj.x - pi.x) := by linarith
    exact mul_nonneg (le_of_lt h2) (pow_nonneg h1 3)
  next h => exact le_refl 0

theorem densContrib_self (q : Particle) : densContrib q q = MASS * poly_6 * HSQ ^ 3 := by
  have h0 : (q.x - q.x).dot (q.x - q.x) = 0 := by simp [Vec2.dot]
  simp only [densContrib, h0]
  rw [if_pos (by norm_num [HSQ, H])]
  norm_num

theorem densityAt_lower (snap : List Particle) (pi : Particle) (h : pi ∈ snap) :
    MASS * poly_6 * HSQ ^ 3 ≤ densityAt snap pi := by
  rw [densityAt_eq_sum]
  have hmem : densContrib pi pi ∈ snap.map (densContrib pi) :=
    List.mem_map_of_mem _ h
  have hnn : ∀ x ∈ snap.map (densContrib pi), 0 ≤ x := by
    intro x hx
    rcases List.mem_map.mp hx with ⟨pj, _, rfl⟩
    exact densContrib_nonneg pi pj
  have hle := List.single_le_sum hnn _ hmem
  rwa [densContrib_self] at hle

theorem cdp_rho_lower (s : List Particle) :
    ∀ q ∈ computeDensityPressure s, MASS * poly_6 * HSQ ^ 3 ≤ q.rho := by
  intro q hq
  rw [computeDensityPressure_eq_map] at hq
  rcases List.mem_map.mp hq with ⟨pi, hpi, rfl⟩
  rw [densityUpdate_rho]
  exact densityAt_lower s pi hpi

theorem cdp_rho_pos (s : List Particle) :
    ∀ q ∈ computeDensityPressure s, 0 < q.rho :=
  fun q hq => lt_of_lt_of_le selfTerm_pos (cdp_rho_lower s q hq)

/-! Zero-divisor flags are false on states of everywhere nonzero density. -/

theorem anyRhoDivZeroForces_eq_false (s : List Particle)
    (h : ∀ q ∈ s, q.rho ≠ 0) : anyRhoDivZeroForces s = false := by
  unfold anyRhoDivZeroForces forcesRhoDivZero
  rw [List.any_eq_false]
  intro pi hpi
  simp only [Bool.or_eq_true, List.any_eq_true, Bool.and_eq_true,
    decide_eq_true_eq, not_or, not_exists, not_and]
  refine ⟨?_, h pi hpi⟩
  intro pj hpj _ _
  push_neg
  exact ⟨mul_ne_zero two_ne_zero (h pj hpj), h pj hpj⟩

theorem anyRhoDivZeroIntegrate_eq_false (s : List Particle)
    (h : ∀ q ∈ s, q.rho ≠ 0) : anyRhoDivZeroIntegrate s = false := by
  unfold anyRhoDivZeroIntegrate
  rw [List.any_eq_false]
  intro q hq
  simp [h q hq]

/-! Value-equal particles are skipped by the force loop. -/

theorem forcesStep_self (pi pj : Particle) (acc : Vec2 × Vec2) (h : pi = pj) :
    forcesStep pi acc pj = acc := by
  simp [forcesStep, h]

theorem foldl_forcesStep_skip (pi pj : Particle) (h : pi = pj)
    (l1 l2 : List Particle) (acc : Vec2 × Vec2) :
    (l1 ++ pj :: l2).foldl (forcesStep pi) acc =
      (l1 ++ l2).foldl (forcesStep pi) acc := by
  rw [List.foldl_append, List.foldl_append, List.foldl_cons,
    forcesStep_self pi pj _ h]

theorem forcesAccum_skip (pi pj : Particle) (h : pi = pj) (l1 l2 : List Particle) :
    forcesAccum (l1 ++ pj :: l2) pi = forcesAccum (l1 ++ l2) pi :=
  foldl_forcesStep_skip pi pj h l1 l2 (0, 0)

theorem list_decomp (s : List Particle) (i : ℕ) (h : i < s.length) :
    s = s.take i ++ s[i] :: s.drop (i + 1) := by
  rw [List.getElem_cons_drop s i h, List.take_append_drop]

theorem forcesUpdate_dup (s : List Particle) (j : ℕ) (hj : j < s.length)
    (pi : Particle) (h : pi = s[j]) :
    forcesUpdate s pi = forcesUpdate (s.eraseIdx j) pi := by
  have hacc : forcesAccum s pi = forcesAccum (s.eraseIdx j) pi := by
    conv_lhs => rw [list_decomp s j hj]
    rw [List.eraseIdx_eq_take_drop_succ]
    exact forcesAccum_skip pi s[j] h _ _
  simp only [forcesUpdate, hacc]

theorem computeForces_getElem (s : List Particle) (i : ℕ) :
    (computeForces s)[i]? = (s[i]?).map (forcesUpdate s) := by
  rw [computeForces_eq_map, List.getElem?_map]

theorem computeDensityPressure_getElem (s : List Particle) (i : ℕ) :
    (computeDensityPressure s)[i]? = (s[i]?).map (densityUpdate s) := by
  rw [computeDensityPressure_eq_map, List.getElem?_map]

/-! Behaviour of the boundary handling of integrate. -/

theorem bounceAxis_id (limit pos vel : ℚ) (h1 : EPS ≤ pos) (h2 : pos + EPS ≤ limit) :
    bounceAxis limit pos vel = (pos, vel) := by
  simp only [bounceAxis, bounceLow, bounceHigh]
  rw [if_neg (show ¬(pos - EPS < 0) by linarith)]
  dsimp only
  rw [if_neg (show ¬(pos + EPS > limit) by linarith)]

theorem bounceAxis_low (limit pos vel : ℚ) (h : pos - EPS < 0) (hlim : 2 * EPS ≤ limit) :
    bounceAxis limit pos vel = (EPS, vel * BOUND_DAMPING) := by
  simp only [bounceAxis, bounceLow, bounceHigh]
  rw [if_pos h]
  dsimp only
  rw [if_neg (show ¬(EPS + EPS > limit) by linarith)]

theorem bounceAxis_high (limit pos vel : ℚ) (hlim : 2 * EPS ≤ limit)
    (h : pos + EPS > limit) :
    bounceAxis limit pos vel = (limit - EPS, vel * BOUND_DAMPING) := by
  have hlow : ¬(pos - EPS < 0) := by linarith
  simp only [bounceAxis, bounceLow, bounceHigh]
  rw [if_neg hlow]
  dsimp only
  rw [if_pos h]

theorem integrateUpdate_x_x (q : Particle) :
    (integrateUpdate q).x.x = (bounceAxis VIEW_WIDTH (posUpd q).x (velUpd q).x).1 := rfl

theorem integrateUpdate_x_y (q : Particle) :
    (integrateUpdate q).x.y = (bounceAxis VIEW_HEIGHT (posUpd q).y (velUpd q).y).1 := rfl

theorem integrateUpdate_v_x (q : Particle) :
    (integrateUpdate q).v.x = (bounceAxis VIEW_WIDTH (posUpd q).x (velUpd q).x).2 := rfl

theorem integrateUpdate_v_y (q : Particle) :
    (integrateUpdate q).v.y = (bounceAxis VIEW_HEIGHT (posUpd q).y (velUpd q).y).2 := rfl

/-- C2 evaluated at its failing input: the containment claim fails on the f32
program.  The state [coincA, coincB] is finite and lies strictly inside the
domain, yet within the very first step() the force pass — which runs on the
output of the density pass — reaches the normalize of a zero separation
vector: the density pass moves no particle, so the pair still shares its
position and, with distinct velocities, still compares unequal, passing the
self-exclusion test with r = 0 < H.  In f32 that division yields NaN, the NaN
propagates into force, velocity and position, and both boundary comparisons of
integrate are false on a NaN position, so no clamp fires and the particle
leaves the domain.  The ℚ model, whose division is total, renders the f32
event through the zero-divisor flag proved true here on the in-step state. -/
theorem C2_containment_nan_escape :
    (EPS ≤ coincA.x.x ∧ coincA.x.x ≤ VIEW_WIDTH - EPS ∧
      EPS ≤ coincA.x.y ∧ coincA.x.y ≤ VIEW_HEIGHT - EPS) ∧
    (EPS ≤ coincB.x.x ∧ coincB.x.x ≤ VIEW_WIDTH - EPS ∧
      EPS ≤ coincB.x.y ∧ coincB.x.y ≤ VIEW_HEIGHT - EPS) ∧
    coincD ∈ computeDensityPressure [coincA, coincB] ∧
    forcesNormDivZero (computeDensityPressure [coincA, coincB]) coincD = true := by
  refine ⟨?_, ?_, ?_, ?_⟩
  · norm_num [coincA, EPS, H, VIEW_WIDTH, VIEW_HEIGHT]
  · norm_num [coincB, EPS, H, VIEW_WIDTH, VIEW_HEIGHT]
  · rw [computeDensityPressure_eq_map]
    exact List.mem_cons_self _ _
  · rw [computeDensityPressure_eq_map]
    unfold forcesNormDivZero
    rw [List.any_eq_true]
    refine ⟨densityUpdate [coincA, coincB] coincB,
      List.mem_cons_of_mem _ (List.mem_cons_self _ _), ?_⟩
    have hdot : ((densityUpdate [coincA, coincB] coincB).x - coincD.x).dot
        ((densityUpdate [coincA, coincB] coincB).x - coincD.x) = 0 := by
      show (coincB.x - coincA.x).dot (coincB.x - coincA.x) = 0
      norm_num [coincA, coincB, Vec2.dot]
    have hs0 : Rat.sqrt 0 = 0 := by decide
    have hsq : Rat.sqrt (((densityUpdate [coincA, coincB] coincB).x - coincD.x).dot
        ((densityUpdate [coincA, coincB] coincB).x - coincD.x)) < H := by
      rw [hdot, hs0]
      norm_num [H]
    have hlen : ((densityUpdate [coincA, coincB] coincB).x - coincD.x).length = 0 := by
      show Rat.sqrt (((densityUpdate [coincA, coincB] coincB).x - coincD.x).dot
        ((densityUpdate [coincA, coincB] coincB).x - coincD.x)) = 0
      rw [hdot, hs0]
    have hne : coincD ≠ densityUpdate [coincA, coincB] coincB := by
      intro hc
      exact (show (0 : ℚ) ≠ 1 by norm_num)
        (congrArg (fun q : Particle => (q.v).x) hc)
    rw [Bool.and_eq_true, Bool.and_eq_true]
    exact ⟨decide_eq_true hne, decide_eq_true hsq, decide_eq_true hlen⟩

/-- C5: integrate is semi-implicit (symplectic) Euler: whenever no boundary
clamp fires, the new velocity is v + DT * f / rho and the new position is the
old position plus DT times the freshly updated velocity; and on a concrete
particle with nonzero force the result differs from the explicit-Euler
position x + DT * v computed from the old velocity. -/
theorem C5_symplectic_euler :
    (∀ q : Particle,
      EPS ≤ (posUpd q).x → (posUpd q).x + EPS ≤ VIEW_WIDTH →
      EPS ≤ (posUpd q).y → (posUpd q).y + EPS ≤ VIEW_HEIGHT →
        (integrateUpdate q).v = q.v + DT * q.f / q.rho ∧
        (integrateUpdate q).x = q.x + DT * (integrateUpdate q).v) ∧
    (integrateUpdate euler1).x ≠ euler1.x + DT * euler1.v := by
  constructor
  · intro q h1 h2 h3 h4
    have hax := bounceAxis_id VIEW_WIDTH (posUpd q).x (velUpd q).x h1 h2
    have hay := bounceAxis_id VIEW_HEIGHT (posUpd q).y (velUpd q).y h3 h4
    have hv : (integrateUpdate q).v = velUpd q := by
      apply Vec2.ext
      · rw [integrateUpdate_v_x, hax]
      · rw [integrateUpdate_v_y, hay]
    have hx : (integrateUpdate q).x = posUpd q := by
      apply Vec2.ext
      · rw [integrateUpdate_x_x, hax]
      · rw [integrateUpdate_x_y, hay]
    exact ⟨hv, by rw [hx, hv]; exact rfl⟩
  · have hvy : (velUpd euler1).y = 7 / 10 := by
      norm_num [velUpd, euler1, DT]
    have hpy : (posUpd euler1).y = 500 + 7 / 10000 * (7 / 10) := by
      simp only [posUpd, Vec2.add_y, Vec2.smul_y, hvy]
      norm_num [euler1, DT]
    have hay := bounceAxis_id VIEW_HEIGHT (posUpd euler1).y (velUpd euler1).y
      (by rw [hpy]; norm_num [EPS, H]) (by rw [hpy]; norm_num [EPS, H, VIEW_HEIGHT])
    intro hc
    have hcy := congrArg Vec2.y hc
    rw [integrateUpdate_x_y, hay] at hcy
    rw [hpy] at hcy
    simp [euler1, DT] at hcy

/-- Witness for C5 at the concrete in-bounds particle grav2. -/
theorem C5_symplectic_euler_w :
    (integrateUpdate grav2).v = grav2.v + DT * grav2.f / grav2.rho ∧
      (integrateUpdate grav2).x = grav2.x + DT * (integrateUpdate grav2).v :=
  C5_symplectic_euler.1 grav2
    (by simp [posUpd, velUpd, grav2, DT, EPS, H]; norm_num)
    (by simp [posUpd, velUpd, grav2, DT, EPS, H, VIEW_WIDTH]; norm_num)
    (by simp [posUpd, velUpd, grav2, DT, EPS, H]; norm_num)
    (by simp [posUpd, velUpd, grav2, DT, EPS, H, VIEW_HEIGHT]; norm_num)

/-- C6: when the post-update position crosses a domain edge on an axis, the
axis position is clamped to EPS from that edge and the velocity of that axis is
multiplied by BOUND_DAMPING = -0.5; the two axes are decided independently by
their own crossing conditions; and on the concrete particle bounce1 the
updated x velocity -2 becomes +1 at the lower-x boundary. -/
theorem C6_bounce :
    (∀ q : Particle,
      ((posUpd q).x - EPS < 0 →
        (integrateUpdate q).x.x = EPS ∧
          (integrateUpdate q).v.x = (velUpd q).x * BOUND_DAMPING) ∧
      ((posUpd q).x + EPS > VIEW_WIDTH →
        (integrateUpdate q).x.x = VIEW_WIDTH - EPS ∧
          (integrateUpdate q).v.x = (velUpd q).x * BOUND_DAMPING) ∧
      ((posUpd q).y - EPS < 0 →
        (integrateUpdate q).x.y = EPS ∧
          (integrateUpdate q).v.y = (velUpd q).y * BOUND_DAMPING) ∧
      ((posUpd q).y + EPS > VIEW_HEIGHT →
        (integrateUpdate q).x.y = VIEW_HEIGHT - EPS ∧
          (integrateUpdate q).v.y = (velUpd q).y * BOUND_DAMPING)) ∧
    ((velUpd bounce1).x = -2 ∧
      (integrateUpdate bounce1).v.x = 1 ∧ (integrateUpdate bounce1).x.x = EPS) := by
  have hwlim : 2 * EPS ≤ VIEW_WIDTH := by norm_num [EPS, H, VIEW_WIDTH]
  have hhlim : 2 * EPS ≤ VIEW_HEIGHT := by norm_num [EPS, H, VIEW_HEIGHT]
  constructor
  · intro q
    refine ⟨fun h => ?_, fun h => ?_, fun h => ?_, fun h => ?_⟩
    · have hax := bounceAxis_low VIEW_WIDTH (posUpd q).x (velUpd q).x h hwlim
      exact ⟨by rw [integrateUpdate_x_x, hax], by rw [integrateUpdate_v_x, hax]⟩
    · have hax := bounceAxis_high VIEW_WIDTH (posUpd q).x (velUpd q).x hwlim h
      exact ⟨by rw [integrateUpdate_x_x, hax], by rw [integrateUpdate_v_x, hax]⟩
    · have hay := bounceAxis_low VIEW_HEIGHT (posUpd q).y (velUpd q).y h hhlim
      exact ⟨by rw [integrateUpdate_x_y, hay], by rw [integrateUpdate_v_y, hay]⟩
    · have hay := bounceAxis_high VIEW_HEIGHT (posUpd q).y (velUpd q).y hhlim h
      exact ⟨by rw [integrateUpdate_x_y, hay], by rw [integrateUpdate_v_y, hay]⟩
  · have hvx : (velUpd bounce1).x = -2 := by
      norm_num [velUpd, bounce1, DT]
    have hcross : (posUpd bounce1).x - EPS < 0 := by
      simp only [posUpd, Vec2.add_x, Vec2.smul_x, hvx]
      norm_num [bounce1, DT, EPS, H]
    have hax := bounceAxis_low VIEW_WIDTH (posUpd bounce1).x (velUpd bounce1).x hcross hwlim
    refine ⟨hvx, ?_, by rw [integrateUpdate_x_x, hax]⟩
    rw [integrateUpdate_v_x, hax]
    dsimp only
    rw [hvx]
    norm_num [BOUND_DAMPING]

/-- Witness for C6: the lower-x crossing hypothesis discharged at the
concrete particle bounce1. -/
theorem C6_bounce_w :
    (integrateUpdate bounce1).x.x = EPS ∧
      (integrateUpdate bounce1).v.x = (velUpd bounce1).x * BOUND_DAMPING :=
  (C6_bounce.1 bounce1).1 (by
    have hvx : (velUpd bounce1).x = -2 := by norm_num [velUpd, bounce1, DT]
    simp only [posUpd, Vec2.add_x, Vec2.smul_x, hvx]
    norm_num [bounce1, DT, EPS, H])

/-! The kernel contribution written with the spec constants. -/

theorem densContrib_spec (pi pj : Particle) :
    densContrib pi pj =
      if (pj.x - pi.x).dot (pj.x - pi.x) < H ^ 2 then
        MASS * (4 / (PI * H ^ 8)) * (H ^ 2 - (pj.x - pi.x).dot (pj.x - pi.x)) ^ 3
      else 0 := by
  have h2 : (H : ℚ) ^ 2 = HSQ := by
    unfold HSQ
    exact pow_two H
  have hp : poly_6 = 4 / (PI * H ^ 8) := by norm_num [poly_6]
  simp only [densContrib]
  rw [← h2, hp]

theorem map_sum_eraseIdx (f : Particle → ℚ) (s : List Particle) (i : ℕ)
    (h : i < s.length) :
    (s.map f).sum = f s[i] + ((s.eraseIdx i).map f).sum := by
  conv_lhs => rw [list_decomp s i h]
  rw [List.eraseIdx_eq_take_drop_succ]
  simp only [List.map_append, List.map_cons, List.sum_append, List.sum_cons]
  ring

theorem selfTerm_spec : MASS * poly_6 * HSQ ^ 3 = MASS * (4 / (PI * H ^ 8)) * H ^ 6 := by
  norm_num [poly_6, HSQ, H, MASS, PI]

/-- C3: compute_density_pressure maps every particle to the poly6 kernel sum
over the full pre-pass snapshot — a pair at squared distance r2 < H²
contributes MASS * (4/(PI*H^8)) * (H² - r2)³ and a pair at r2 ≥ H² contributes
exactly zero, the particle itself included in the sum — followed by the linear
equation of state p = GAS * (rho - REST_DENS); and the resulting pressure can
legitimately be negative, as on the isolated particle soloP. -/
theorem C3_density_pressure_formula :
    (∀ s : List Particle,
      computeDensityPressure s = s.map (fun pi =>
        { pi with
          rho := (s.map (fun pj =>
            if (pj.x - pi.x).dot (pj.x - pi.x) < H ^ 2 then
              MASS * (4 / (PI * H ^ 8)) *
                (H ^ 2 - (pj.x - pi.x).dot (pj.x - pi.x)) ^ 3
            else 0)).sum,
          p := GAS * ((s.map (fun pj =>
            if (pj.x - pi.x).dot (pj.x - pi.x) < H ^ 2 then
              MASS * (4 / (PI * H ^ 8)) *
                (H ^ 2 - (pj.x - pi.x).dot (pj.x - pi.x)) ^ 3
            else 0)).sum - REST_DENS) })) ∧
    (∃ q ∈ computeDensityPressure [soloP], q.p < 0) := by
  constructor
  · intro s
    rw [computeDensityPressure_eq_map]
    have hf : densityUpdate s = fun pi =>
        { pi with
          rho := (s.map (fun pj =>
            if (pj.x - pi.x).dot (pj.x - pi.x) < H ^ 2 then
              MASS * (4 / (PI * H ^ 8)) *
                (H ^ 2 - (pj.x - pi.x).dot (pj.x - pi.x)) ^ 3
            else 0)).sum,
          p := GAS * ((s.map (fun pj =>
            if (pj.x - pi.x).dot (pj.x - pi.x) < H ^ 2 then
              MASS * (4 / (PI * H ^ 8)) *
                (H ^ 2 - (pj.x - pi.x).dot (pj.x - pi.x)) ^ 3
            else 0)).sum - REST_DENS) } := by
      funext pi
      have hc : densContrib pi = fun pj =>
          if (pj.x - pi.x).dot (pj.x - pi.x) < H ^ 2 then
            MASS * (4 / (PI * H ^ 8)) *
              (H ^ 2 - (pj.x - pi.x).dot (pj.x - pi.x)) ^ 3
          else 0 := funext fun pj => densContrib_spec pi pj
      simp only [densityUpdate, densityAt_eq_sum, hc]
    rw [hf]
  · rw [computeDensityPressure_eq_map]
    refine ⟨densityUpdate [soloP] soloP, by simp, ?_⟩
    rw [densityUpdate_p]
    have hd : densityAt [soloP] soloP = MASS * poly_6 * HSQ ^ 3 := by
      rw [densityAt_eq_sum]
      simp only [List.map_cons, List.map_nil, List.sum_cons, List.sum_nil, add_zero]
      exact densContrib_self soloP
    rw [hd]
    norm_num [MASS, poly_6, HSQ, H, PI, GAS, REST_DENS]

/-- C4: the force accumulated for particle i never pairs i with itself — the
snapshot with the own entry of i erased produces the identical force — while the
density of particle i always contains the self-term of i, which at squared
distance zero equals MASS * (4/(PI*H^8)) * H^6. -/
theorem C4_self_pairing :
    ∀ (s : List Particle) (i : ℕ),
      (computeForces s)[i]? = (s[i]?).map (fun pi => forcesUpdate (s.eraseIdx i) pi) ∧
      ((computeDensityPressure s)[i]?).map Particle.rho =
        (s[i]?).map (fun pi =>
          MASS * (4 / (PI * H ^ 8)) * H ^ 6 +
            ((s.eraseIdx i).map (densContrib pi)).sum) := by
  intro s i
  by_cases hi : i < s.length
  · have hsome : s[i]? = some s[i] := List.getElem?_eq_getElem hi
    constructor
    · rw [computeForces_getElem, hsome]
      show some (forcesUpdate s s[i]) = some (forcesUpdate (s.eraseIdx i) s[i])
      rw [forcesUpdate_dup s i hi s[i] rfl]
    · rw [computeDensityPressure_getElem, hsome]
      show some ((densityUpdate s s[i]).rho) =
        some (MASS * (4 / (PI * H ^ 8)) * H ^ 6 +
          ((s.eraseIdx i).map (densContrib s[i])).sum)
      rw [densityUpdate_rho, densityAt_eq_sum,
        map_sum_eraseIdx (densContrib s[i]) s i hi, densContrib_self, selfTerm_spec]
  · have hnone : s[i]? = none := List.getElem?_eq_none (le_of_not_lt hi)
    constructor
    · rw [computeForces_getElem, hnone]
      rfl
    · rw [computeDensityPressure_getElem, hnone]
      rfl

/-- C7: the gravity contribution to the accumulated force is exactly
G * MASS / rho (divided by the density of the particle), and since integrate then
divides the whole force by the density again, the velocity of an isolated particle
increment is DT * MASS / rho² times G — the gravity term is density-normalized
twice. -/
theorem C7_gravity_double_normalization :
    ∀ q : Particle, 0 < q.rho →
      computeForces [q] = [{ q with f := G * MASS / q.rho }] ∧
      velUpd { q with f := G * MASS / q.rho } = q.v + DT * MASS / q.rho ^ 2 * G := by
  intro q hq
  have hne : q.rho ≠ 0 := ne_of_gt hq
  have hacc : forcesAccum [q] q = (0, 0) := by
    simp [forcesAccum, forcesStep]
  constructor
  · rw [computeForces_eq_map]
    simp only [List.map_cons, List.map_nil, forcesUpdate, hacc]
    have hz : (0 : Vec2) + (0 : Vec2) + G * MASS / q.rho = G * MASS / q.rho := by
      apply Vec2.ext <;> simp
    rw [hz]
  · apply Vec2.ext
    · simp only [velUpd, Vec2.add_x, Vec2.smul_x, Vec2.divc_x, Vec2.mulc_x]
      field_simp
      ring
    · simp only [velUpd, Vec2.add_y, Vec2.smul_y, Vec2.divc_y, Vec2.mulc_y]
      field_simp
      ring

/-- Witness for C7 at the isolated particle grav2 of density 2. -/
theorem C7_gravity_double_normalization_w :
    computeForces [grav2] = [{ grav2 with f := G * MASS / grav2.rho }] ∧
      velUpd { grav2 with f := G * MASS / grav2.rho } =
        grav2.v + DT * MASS / grav2.rho ^ 2 * G :=
  C7_gravity_double_normalization grav2 (by norm_num [grav2])

/-- C8: each snapshot pass (density/pressure and forces) is a pure map over
the frozen pre-pass snapshot: the sequential in-place loop produces the same
state for every visiting order that touches each index exactly once, so no
per-particle output is affected by values mutated earlier in the same pass. -/
theorem C8_snapshot_purity :
    ∀ (s : List Particle) (order : List ℕ), order.Perm (List.range s.length) →
      inPlacePass densityUpdate s order = s.map (densityUpdate s) ∧
      inPlacePass forcesUpdate s order = s.map (forcesUpdate s) ∧
      computeDensityPressure s = s.map (densityUpdate s) ∧
      computeForces s = s.map (forcesUpdate s) :=
  fun s _ h =>
    ⟨inPlacePass_perm_eq_map _ _ _ h, inPlacePass_perm_eq_map _ _ _ h,
      computeDensityPressure_eq_map s, computeForces_eq_map s⟩

/-- Witness for C8 at a two-particle state visited in reversed order. -/
theorem C8_snapshot_purity_w :
    inPlacePass densityUpdate [zeroRhoA, zeroRhoB] [1, 0] =
        [zeroRhoA, zeroRhoB].map (densityUpdate [zeroRhoA, zeroRhoB]) ∧
      inPlacePass forcesUpdate [zeroRhoA, zeroRhoB] [1, 0] =
        [zeroRhoA, zeroRhoB].map (forcesUpdate [zeroRhoA, zeroRhoB]) ∧
      computeDensityPressure [zeroRhoA, zeroRhoB] =
        [zeroRhoA, zeroRhoB].map (densityUpdate [zeroRhoA, zeroRhoB]) ∧
      computeForces [zeroRhoA, zeroRhoB] =
        [zeroRhoA, zeroRhoB].map (forcesUpdate [zeroRhoA, zeroRhoB]) :=
  C8_snapshot_purity [zeroRhoA, zeroRhoB] [1, 0]
    (show [1, 0].Perm (List.range 2) from List.Perm.swap 0 1 [])

/-- C9: the self-exclusion test of compute_forces compares whole particle
values (the derived PartialEq), not indices: whenever two distinct slots hold
equal particle values, each is also excluded from the pressure and
viscosity sums of the other — erasing the duplicate slot leaves the force unchanged — and
on a state of two value-equal particles both forces reduce to gravity alone. -/
theorem C9_value_equality_exclusion :
    (∀ (s : List Particle) (i j : ℕ), i ≠ j → s[i]? = s[j]? →
      (computeForces s)[i]? = (s[i]?).map (fun pi => forcesUpdate (s.eraseIdx j) pi)) ∧
    computeForces [coincA, coincA] =
      [{ coincA with f := G * MASS / coincA.rho },
        { coincA with f := G * MASS / coincA.rho }] := by
  constructor
  · intro s i j hij hval
    by_cases hi : i < s.length
    · have hsome : s[i]? = some s[i] := List.getElem?_eq_getElem hi
      have hjs : s[j]? = some s[i] := by rw [← hval, hsome]
      rcases List.getElem?_eq_some.mp hjs with ⟨hjl, hje⟩
      rw [computeForces_getElem, hsome]
      show some (forcesUpdate s s[i]) = some (forcesUpdate (s.eraseIdx j) s[i])
      rw [forcesUpdate_dup s j hjl s[i] hje.symm]
    · have hnone : s[i]? = none := List.getElem?_eq_none (le_of_not_lt hi)
      rw [computeForces_getElem, hnone]
      rfl
  · rw [computeForces_eq_map]
    have hacc : forcesAccum [coincA, coincA] coincA = (0, 0) := by
      simp [forcesAccum, forcesStep]
    simp only [List.map_cons, List.map_nil, forcesUpdate, hacc]
    have hz : (0 : Vec2) + (0 : Vec2) + G * MASS / coincA.rho = G * MASS / coincA.rho := by
      apply Vec2.ext <;> simp
    rw [hz]

/-- Witness for C9: the duplicate-value hypotheses discharged on the concrete
state [coincA, coincA] at the index pair (0, 1). -/
theorem C9_value_equality_exclusion_w :
    (computeForces [coincA, coincA])[0]? =
      (([coincA, coincA] : List Particle)[0]?).map
        (fun pi => forcesUpdate (([coincA, coincA] : List Particle).eraseIdx 1) pi) :=
  C9_value_equality_exclusion.1 [coincA, coincA] 0 1 (by decide) rfl

/-- C1 counterexample: the divisions by density are not guarded.  On the
concrete state [zeroRhoA, zeroRhoB], whose particles carry density zero, the
force pass reaches the pressure/viscosity pair of the two in-range particles
with divisors 2 * rho and rho equal to zero, and the gravity and velocity
divisions by the own zero density of the particle are reached as well — no clamp to
a positive floor and no skipping of the contribution happens anywhere. -/
theorem C1_no_guard_cex :
    zeroRhoB.rho = 0 ∧ zeroRhoA ≠ zeroRhoB ∧
      Rat.sqrt ((zeroRhoB.x - zeroRhoA.x).dot (zeroRhoB.x - zeroRhoA.x)) < H ∧
      (2 : ℚ) * zeroRhoB.rho = 0 ∧
      anyRhoDivZeroForces [zeroRhoA, zeroRhoB] = true ∧
      anyRhoDivZeroIntegrate [zeroRhoA, zeroRhoB] = true := by
  have hdot : (zeroRhoB.x - zeroRhoA.x).dot (zeroRhoB.x - zeroRhoA.x) = 1 := by
    norm_num [zeroRhoA, zeroRhoB, Vec2.dot]
  have hsq : Rat.sqrt ((zeroRhoB.x - zeroRhoA.x).dot (zeroRhoB.x - zeroRhoA.x)) < H := by
    rw [hdot]
    have h1 : Rat.sqrt 1 = 1 := by decide
    rw [h1]
    norm_num [H]
  have hne : zeroRhoA ≠ zeroRhoB := by
    simp [zeroRhoA, zeroRhoB]
  have h20 : (2 : ℚ) * zeroRhoB.rho = 0 := by norm_num [zeroRhoB]
  refine ⟨rfl, hne, hsq, h20, ?_, ?_⟩
  · unfold anyRhoDivZeroForces
    rw [List.any_eq_true]
    refine ⟨zeroRhoA, by simp, ?_⟩
    unfold forcesRhoDivZero
    rw [Bool.or_eq_true]
    left
    rw [List.any_eq_true]
    refine ⟨zeroRhoB, by simp, ?_⟩
    rw [Bool.and_eq_true, Bool.and_eq_true, Bool.or_eq_true]
    exact ⟨decide_eq_true hne, decide_eq_true hsq, Or.inl (decide_eq_true h20)⟩
  · unfold anyRhoDivZeroIntegrate
    rw [List.any_eq_true]
    exact ⟨zeroRhoA, by simp, decide_eq_true rfl⟩

/-- C1 amended: the code contains no guard (see C1_no_guard_cex), but every
density produced by compute_density_pressure contains the own
strictly positive self-term MASS * (4/(PI*H^8)) * H^6, so inside a step() —
where compute_forces and integrate only ever divide by densities written by
the density pass — none of the divisions by a density has a zero divisor. -/
theorem C1_density_floor :
    ∀ s : List Particle,
      (∀ q ∈ computeDensityPressure s,
        MASS * (4 / (PI * H ^ 8)) * H ^ 6 ≤ q.rho ∧ 0 < q.rho) ∧
      anyRhoDivZeroForces (computeDensityPressure s) = false ∧
      anyRhoDivZeroIntegrate (computeForces (computeDensityPressure s)) = false := by
  intro s
  have hpos := cdp_rho_pos s
  refine ⟨fun q hq => ⟨selfTerm_spec ▸ cdp_rho_lower s q hq, hpos q hq⟩, ?_, ?_⟩
  · exact anyRhoDivZeroForces_eq_false _ fun q hq => ne_of_gt (hpos q hq)
  · apply anyRhoDivZeroIntegrate_eq_false
    intro q hq
    rw [computeForces_eq_map] at hq
    rcases List.mem_map.mp hq with ⟨r, hr, rfl⟩
    rw [forcesUpdate_rho]
    exact ne_of_gt (hpos r hr)

/-- Witness for C1: the density floor and the absence of zero divisors
evaluated on the one-particle state [soloP]. -/
theorem C1_density_floor_w :
    MASS * (4 / (PI * H ^ 8)) * H ^ 6 ≤ (densityUpdate [soloP] soloP).rho ∧
      0 < (densityUpdate [soloP] soloP).rho ∧
      anyRhoDivZeroForces (computeDensityPressure [soloP]) = false ∧
      anyRhoDivZeroIntegrate (computeForces (computeDensityPressure [soloP])) = false := by
  have h := C1_density_floor [soloP]
  have hmem : densityUpdate [soloP] soloP ∈ computeDensityPressure [soloP] := by
    rw [computeDensityPressure_eq_map]
    simp
  exact ⟨(h.1 _ hmem).1, (h.1 _ hmem).2, h.2.1, h.2.2⟩

/-- C10: compute_forces does not guard the zero-distance case.  On the state
[coincA, coincB] the two particles share a position but differ in velocity, so
they compare unequal and pass the self-exclusion test with r = 0 < H; the
pressure term then normalizes the zero separation vector, whose divisor — the
length of rij — is zero, the division that produces the NaN pressure-force
contribution of the f32 source. -/
theorem C10_zero_distance_unguarded :
    coincA ≠ coincB ∧ coincA.x = coincB.x ∧ coincA.v ≠ coincB.v ∧
      Rat.sqrt ((coincB.x - coincA.x).dot (coincB.x - coincA.x)) < H ∧
      (coincB.x - coincA.x).length = 0 ∧
      forcesNormDivZero [coincA, coincB] coincA = true := by
  have hdot : (coincB.x - coincA.x).dot (coincB.x - coincA.x) = 0 := by
    norm_num [coincA, coincB, Vec2.dot]
  have hs0 : Rat.sqrt 0 = 0 := by decide
  have hsq : Rat.sqrt ((coincB.x - coincA.x).dot (coincB.x - coincA.x)) < H := by
    rw [hdot, hs0]
    norm_num [H]
  have hlen : (coincB.x - coincA.x).length = 0 := by
    show Rat.sqrt ((coincB.x - coincA.x).dot (coincB.x - coincA.x)) = 0
    rw [hdot, hs0]
  have hvx : (0 : ℚ) ≠ 1 := by norm_num
  have hne : coincA ≠ coincB := by
    intro hc
    exact hvx (congrArg (fun q : Particle => (q.v).x) hc)
  have hvne : coincA.v ≠ coincB.v := by
    intro hc
    exact hvx (congrArg Vec2.x hc)
  refine ⟨hne, rfl, hvne, hsq, hlen, ?_⟩
  unfold forcesNormDivZero
  rw [List.any_eq_true]
  refine ⟨coincB, by simp, ?_⟩
  rw [Bool.and_eq_true, Bool.and_eq_true]
  exact ⟨decide_eq_true hne, decide_eq_true hsq, decide_eq_true hlen⟩

end SPH
